import Mathlib

/-
Verification development for the JSONata-based pricing badge engine in
src/src/composables/node/useNodePricing.ts.

The TypeScript source is embedded shallowly:
- JavaScript dynamic values are the inductive type JSValue; JavaScript numbers
  are JNum (a rational for the finite case, plus NaN and the two infinities),
  which idealizes IEEE doubles but preserves the finite/non-finite distinction
  the code branches on.
- Platform primitives that live outside this repository (Number(...) parsing of
  strings, number-to-string conversion, JSON.stringify, and the external
  formatCreditsFromUsd utility from @/base/credits/comfyCredits) are fields of
  a JSPlatform record; all theorems quantify over the platform unless a
  concrete witness requires one.
- The per-node WeakMap side state (cache, desiredSig, inflight) is modelled for
  a single entity as a SchedState record; nodes are independent in the source
  (each WeakMap entry is keyed by node identity), so per-entity claims are
  settled on this single-entity state. The promise of an InflightEntry is
  dropped: the source only ever compares the sig field of the record.
- Asynchronous completion of an evaluation (the then/catch/finally chain built
  in scheduleEvaluation) is the completeAt step, fired for one element of the
  list of physically running evaluations with an externally chosen outcome.
-/

namespace Pricing

/-- JavaScript numbers: finite values idealized as rationals, plus the
non-finite values the source tests for with Number.isFinite. -/
inductive JNum where
  | fin : ℚ → JNum
  | nan : JNum
  | inf : JNum
  | ninf : JNum
deriving DecidableEq

/-- Number.isFinite. -/
def JNum.isFinite : JNum → Bool
  | JNum.fin _ => true
  | _ => false

/-- JavaScript dynamic values as the pricing code distinguishes them:
null, undefined, booleans, numbers, strings, plain objects (association list
of fields) and arrays. -/
inductive JSValue where
  | null : JSValue
  | undef : JSValue
  | bool : Bool → JSValue
  | num : JNum → JSValue
  | str : String → JSValue
  | obj : List (String × JSValue) → JSValue
  | arr : List JSValue → JSValue

/-- Whether a value is null or undefined (the two nullish values). -/
def JSValue.isNullish : JSValue → Bool
  | JSValue.null => true
  | JSValue.undef => true
  | _ => false

/-- Platform primitives external to the repository. -/
structure JSPlatform where
  /-- String(n) for a number n. -/
  numToString : JNum → String
  /-- Number(s) for a trimmed non-empty string s. -/
  parseNumber : String → JNum
  /-- JSON.stringify; none models a thrown exception. -/
  jsonStringify : JSValue → Option String
  /-- formatCreditsFromUsd from @/base/credits/comfyCredits, applied with the
  fixed DEFAULT_NUMBER_OPTIONS of the source. -/
  formatCreditsFromUsd : JNum → String

/-- String.prototype.trim: whitespace stripped from both ends, computed on
the character list. -/
def jsTrim (s : String) : String :=
  ⟨((s.data.dropWhile Char.isWhitespace).reverse.dropWhile Char.isWhitespace).reverse⟩

/-- String.prototype.toLowerCase, computed on the character list. -/
def jsToLower (s : String) : String :=
  ⟨s.data.map Char.toLower⟩

/-- Array.prototype.join: elements interleaved with the separator, the empty
string for the empty array. -/
def joinSep (sep : String) : List String → String
  | [] => ""
  | [x] => x
  | x :: xs => x ++ sep ++ joinSep sep xs

/-- String(v): the JavaScript ToString conversion. Arrays stringify as their
elements joined by commas with nullish elements becoming empty, objects as
"[object Object]". -/
def jsToString (P : JSPlatform) : JSValue → String
  | JSValue.null => "null"
  | JSValue.undef => "undefined"
  | JSValue.bool b => if b then "true" else "false"
  | JSValue.num n => P.numToString n
  | JSValue.str s => s
  | JSValue.obj _ => "[object Object]"
  | JSValue.arr xs =>
      joinSep "," (xs.attach.map (fun y =>
        if y.1.isNullish then "" else jsToString P y.1))
decreasing_by
  simp_wf
  have hm := List.sizeOf_lt_of_mem y.2
  omega

/-- asFiniteNumber from the source: null/undefined give null; numbers pass
through when finite; strings are trimmed, the empty trim gives null, otherwise
the string is parsed and the parse must be finite; booleans, objects and
arrays are never coerced. -/
def asFiniteNumber (P : JSPlatform) : JSValue → Option JNum
  | JSValue.null => none
  | JSValue.undef => none
  | JSValue.num n => if n.isFinite then some n else none
  | JSValue.str s =>
      let t := jsTrim s
      if t = "" then none
      else
        let n := P.parseNumber t
        if n.isFinite then some n else none
  | _ => none

/-- NormalizedWidgetValue from the source. -/
structure NormalizedWidgetValue where
  raw : JSValue
  s : String
  n : Option JNum
  b : Option Bool

/-- normalizeWidgetValue from the source. -/
def normalizeWidgetValue (P : JSPlatform) (raw : JSValue) : NormalizedWidgetValue :=
  let s :=
    match raw with
    | JSValue.undef => ""
    | JSValue.null => ""
    | v => jsToLower (jsTrim (jsToString P v))
  let n := asFiniteNumber P raw
  let b : Option Bool :=
    match raw with
    | JSValue.bool x => some x
    | JSValue.str s0 =>
        let ls := jsToLower (jsTrim s0)
        if ls = "true" then some true
        else if ls = "false" then some false
        else none
    | _ => none
  { raw := raw, s := s, n := n, b := b }

/-- safeValueForSig from the source: nullish values become the empty string,
primitives stringify directly, other values use JSON.stringify with a
String(v) fallback when stringification throws. -/
def safeValueForSig (P : JSPlatform) : JSValue → String
  | JSValue.null => ""
  | JSValue.undef => ""
  | JSValue.str s => s
  | JSValue.num n => P.numToString n
  | JSValue.bool b => if b then "true" else "false"
  | v =>
      match P.jsonStringify v with
      | some s => s
      | none => jsToString P v

/-- Dependency lists of a rule. -/
structure DependsOn where
  widgets : List String
  inputs : List String

/-- CreditFormatOptions from the source; absent optional fields are none. -/
structure CreditFormatOptions where
  suffix : Option String := none
  note : Option String := none
  approximate : Option Bool := none
  separator : Option String := none
deriving DecidableEq

/-- JsonataPricingRule from the source: engine tag, declared dependency
lists, optional format defaults and the expression source text. -/
structure JsonataPricingRule where
  engine : String
  depends_on : DependsOn
  result_defaults : Option CreditFormatOptions := none
  expr : String

/-- CompiledJsonataPricingRule from the source: the rule plus its compiled
evaluator handle. The handle itself is an external JSONata object; the model
keeps only whether it is non-null (compilation succeeded), which is all the
engine inspects. Evaluation outcomes arrive as completion events. -/
structure CompiledJsonataPricingRule extends JsonataPricingRule where
  compiled : Bool

/-- JsonataEvalContext from the source: w maps a widget name to its
normalized value, i maps an input name to its record holding the connected
flag (modelled by the flag itself). Record lookup misses are none. -/
structure JsonataEvalContext where
  w : String → Option NormalizedWidgetValue
  i : String → Option Bool

/-- Raw value the signature reads for a widget name: ctx.w[name]?.raw, with a
record miss giving undefined. -/
def ctxRaw (ctx : JsonataEvalContext) (name : String) : JSValue :=
  match ctx.w name with
  | some nv => nv.raw
  | none => JSValue.undef

/-- Connected flag the signature reads for an input name:
ctx.i[name]?.connected with JavaScript truthiness, a record miss counting as
not connected. -/
def ctxConnected (ctx : JsonataEvalContext) (name : String) : Bool :=
  match ctx.i name with
  | some c => c
  | none => false

/-- Signature part contributed by one declared widget name. -/
def widgetSigPart (P : JSPlatform) (ctx : JsonataEvalContext) (name : String) : String :=
  "w:" ++ name ++ "=" ++ safeValueForSig P (ctxRaw ctx name)

/-- Signature part contributed by one declared input name. -/
def inputSigPart (ctx : JsonataEvalContext) (name : String) : String :=
  "i:" ++ name ++ "=" ++ (if ctxConnected ctx name then "1" else "0")

/-- buildSignature from the source: the declared widget parts then the
declared input parts, in declared order, joined by the bar separator. -/
def buildSignature (P : JSPlatform) (ctx : JsonataEvalContext) (rule : JsonataPricingRule) : String :=
  joinSep "|"
    (rule.depends_on.widgets.map (widgetSigPart P ctx) ++
      rule.depends_on.inputs.map (inputSigPart ctx))

/-- makePrefix from the source: the tilde exactly when approximate is truthy.
With the TypeScript field type boolean, truthy means the value true. -/
def approxMark : Option Bool → String
  | some true => "~"
  | _ => ""

/-- makeSuffix from the source: nullish coalescing to the default "/Run". -/
def makeSuffix (s : Option String) : String := s.getD "/Run"

/-- appendNote from the source: one leading space when the note is truthy; a
missing note or the empty string (falsy in JavaScript) appends nothing. -/
def appendNote : Option String → String
  | some n => if n = "" then "" else " " ++ n
  | none => ""

/-- formatCreditsValue from the source: formatCreditsFromUsd with the fixed
default number options, supplied by the platform. -/
def formatCreditsValue (P : JSPlatform) (usd : JNum) : String :=
  P.formatCreditsFromUsd usd

/-- formatCreditsLabel from the source. -/
def formatCreditsLabel (P : JSPlatform) (usd : JNum) (o : CreditFormatOptions) : String :=
  approxMark o.approximate ++ formatCreditsValue P usd ++ " credits" ++
    makeSuffix o.suffix ++ appendNote o.note

/-- formatCreditsRangeLabel from the source: the two bounds are formatted and
collapsed to a single amount when the formatted strings agree, otherwise
joined with a dash. -/
def formatCreditsRangeLabel (P : JSPlatform) (minUsd maxUsd : JNum)
    (o : CreditFormatOptions) : String :=
  let mn := formatCreditsValue P minUsd
  let mx := formatCreditsValue P maxUsd
  let rangeValue := if mn = mx then mn else mn ++ "-" ++ mx
  approxMark o.approximate ++ rangeValue ++ " credits" ++
    makeSuffix o.suffix ++ appendNote o.note

/-- formatCreditsListLabel from the source: each value formatted, joined by
the separator (default the slash). -/
def formatCreditsListLabel (P : JSPlatform) (usdValues : List JNum)
    (o : CreditFormatOptions) : String :=
  let parts := usdValues.map (formatCreditsValue P)
  let value := joinSep (o.separator.getD "/") parts
  approxMark o.approximate ++ value ++ " credits" ++
    makeSuffix o.suffix ++ appendNote o.note

/-- Property access r[k] on a value: a field of an object when present,
undefined otherwise. Objects produced by JSONata have no duplicate keys, so
first-match lookup is the record semantics. -/
def jsGetField (v : JSValue) (k : String) : JSValue :=
  match v with
  | JSValue.obj fs => (fs.lookup k).getD JSValue.undef
  | _ => JSValue.undef

/-- Truthy values of typeof object: plain objects and arrays; null is falsy
and is excluded by the truthiness test in the source. -/
def jsIsObjectLike : JSValue → Bool
  | JSValue.obj _ => true
  | JSValue.arr _ => true
  | _ => false

/-- String-typed field of a result object, as the TypeScript
CreditFormatOptions type declares it; a missing field is none. Fields of a
type other than their TypeScript declaration are outside the typed surface
the source manipulates and are treated as absent. -/
def strFieldOf (v : JSValue) (k : String) : Option String :=
  match jsGetField v k with
  | JSValue.str s => some s
  | _ => none

/-- Boolean-typed field of a result object; a missing field is none. -/
def boolFieldOf (v : JSValue) (k : String) : Option Bool :=
  match jsGetField v k with
  | JSValue.bool b => some b
  | _ => none

/-- Reading the format field of a result into CreditFormatOptions. A nullish
or non-object format field contributes nothing, matching the spread of
(r.format ?? the empty object) in the source. -/
def formatOptionsOfJS (v : JSValue) : CreditFormatOptions :=
  { suffix := strFieldOf v "suffix"
    note := strFieldOf v "note"
    approximate := boolFieldOf v "approximate"
    separator := strFieldOf v "separator" }

/-- Object spread of the result-level options over the rule-level defaults:
a field present in the override wins, otherwise the default applies. -/
def mergeFormat (defaults override : CreditFormatOptions) : CreditFormatOptions :=
  { suffix := override.suffix <|> defaults.suffix
    note := override.note <|> defaults.note
    approximate := override.approximate <|> defaults.approximate
    separator := override.separator <|> defaults.separator }

/-- formatPricingResult from the source: non-objects give the empty string;
the type tag selects the renderer; usd and range_usd fields must be finite
after asFiniteNumber or the empty string results; list_usd keeps the finite
elements of its array and gives the empty string only when the field is not
an array or no finite element remains; unknown tags give the empty string. -/
def formatPricingResult (P : JSPlatform) (result : JSValue)
    (defaults : CreditFormatOptions) : String :=
  if jsIsObjectLike result = false then ""
  else
    match jsGetField result "type" with
    | JSValue.str ty =>
        if ty = "text" then
          match jsGetField result "text" with
          | JSValue.null => ""
          | JSValue.undef => ""
          | JSValue.str t => t
          | t => jsToString P t
        else if ty = "usd" then
          match asFiniteNumber P (jsGetField result "usd") with
          | none => ""
          | some usd =>
              let fmt := mergeFormat defaults (formatOptionsOfJS (jsGetField result "format"))
              formatCreditsLabel P usd fmt
        else if ty = "range_usd" then
          match asFiniteNumber P (jsGetField result "min_usd"),
                asFiniteNumber P (jsGetField result "max_usd") with
          | some minUsd, some maxUsd =>
              let fmt := mergeFormat defaults (formatOptionsOfJS (jsGetField result "format"))
              formatCreditsRangeLabel P minUsd maxUsd fmt
          | _, _ => ""
        else if ty = "list_usd" then
          match jsGetField result "usd" with
          | JSValue.arr xs =>
              let usdValues := xs.filterMap (asFiniteNumber P)
              if usdValues.isEmpty then ""
              else
                let fmt := mergeFormat defaults (formatOptionsOfJS (jsGetField result "format"))
                formatCreditsListLabel P usdValues fmt
          | _ => ""
        else ""
    | _ => ""

/-- Relevant slice of the nodeData record on a node constructor. The
api_node flag is optional in the schema, hence Option Bool; it is truthy
exactly when some true. -/
structure NodeData where
  name : Option String
  api_node : Option Bool

/-- A widget of the host node: its name and current raw value. -/
structure Widget where
  name : String
  value : JSValue

/-- An input slot of the host node: its name and link value; the slot is
connected when the link is neither null nor undefined. -/
structure InputSlot where
  name : String
  link : JSValue

/-- Relevant slice of an LGraphNode: optional nodeData on the constructor,
optional widget and input lists. -/
structure PricingNode where
  nodeData : Option NodeData
  widgets : Option (List Widget)
  inputs : Option (List InputSlot)

/-- node.widgets?.find by name, then widget?.value: a missing list or a
missing widget reads as undefined. -/
def nodeWidgetValue (node : PricingNode) (name : String) : JSValue :=
  match node.widgets with
  | none => JSValue.undef
  | some ws =>
      match ws.find? (fun x => x.name == name) with
      | none => JSValue.undef
      | some wgt => wgt.value

/-- node.inputs?.find by name, then slot?.link != null with loose equality:
missing list, missing slot, and nullish link all read as not connected. -/
def nodeInputConnected (node : PricingNode) (name : String) : Bool :=
  match node.inputs with
  | none => false
  | some ss =>
      match ss.find? (fun x => x.name == name) with
      | none => false
      | some slot => !slot.link.isNullish

/-- buildJsonataContext from the source: every declared widget name is bound
to the normalization of its looked-up value, every declared input name to its
connected flag; nothing else enters the context. -/
def buildJsonataContext (P : JSPlatform) (node : PricingNode)
    (rule : JsonataPricingRule) : JsonataEvalContext :=
  { w := fun name =>
      if rule.depends_on.widgets.contains name then
        some (normalizeWidgetValue P (nodeWidgetValue node name))
      else none
    i := fun name =>
      if rule.depends_on.inputs.contains name then
        some (nodeInputConnected node name)
      else none }

/-- CacheEntry from the source. -/
structure CacheEntry where
  sig : String
  label : String
deriving DecidableEq

/-- Per-entity scheduler state: the three WeakMap slots for one node (cache,
desiredSig, inflight — of an InflightEntry only the sig field is ever read),
the signatures of evaluations physically running in start order (superseded
evaluations keep running until their completion event), the reactive tick and
the number of evaluator invocations made so far. -/
structure SchedState where
  cache : Option CacheEntry
  desired : Option String
  inflight : Option String
  pending : List String
  tick : Nat
  evalCount : Nat
deriving DecidableEq

/-- Scheduler state of a fresh entity: no WeakMap entries, nothing running. -/
def initState : SchedState :=
  { cache := none, desired := none, inflight := none
    pending := [], tick := 0, evalCount := 0 }

/-- scheduleEvaluation from the source, state part: record the desired
signature first; coalesce when the in-flight record already carries this
signature; do nothing for an uncompiled rule; otherwise start the evaluator
(one more physically running evaluation) and point the in-flight record at
this signature. -/
def scheduleEvaluation (s : SchedState) (sig : String) (compiled : Bool) : SchedState :=
  let s1 := { s with desired := some sig }
  if s1.inflight = some sig then s1
  else if compiled = false then s1
  else
    { s1 with
      pending := s1.pending ++ [sig]
      inflight := some sig
      evalCount := s1.evalCount + 1 }

/-- Outcome of one evaluator run: the raw resolved value, or a rejection. -/
inductive Outcome where
  | success : JSValue → Outcome
  | failure : Outcome

/-- Completion of the physically running evaluation at index i of pending,
replaying the then/catch/finally chain of scheduleEvaluation: a stale result
(desired signature no longer this one) writes nothing; otherwise success
writes the formatted label and failure writes the empty label for this
signature; finally the in-flight record is cleared when it still carries this
signature, and the reactive tick is bumped. An index with no running
evaluation is no event at all. -/
def completeAt (P : JSPlatform) (defaults : CreditFormatOptions)
    (s : SchedState) (i : Nat) (o : Outcome) : SchedState :=
  match s.pending.get? i with
  | none => s
  | some sig =>
      let s1 := { s with pending := s.pending.eraseIdx i }
      let s2 :=
        match o with
        | Outcome.success res =>
            let label := formatPricingResult P res defaults
            if s1.desired = some sig then { s1 with cache := some ⟨sig, label⟩ } else s1
        | Outcome.failure =>
            if s1.desired = some sig then { s1 with cache := some ⟨sig, ""⟩ } else s1
      let s3 := if s2.inflight = some sig then { s2 with inflight := none } else s2
      { s3 with tick := s3.tick + 1 }

/-- getRuleForNode from the source: look up the constructor nodeData name
(empty when absent) in the compiled rule table, here any table. -/
def getRuleForNode (rules : String → Option CompiledJsonataPricingRule)
    (node : PricingNode) : Option CompiledJsonataPricingRule :=
  let nodeName :=
    match node.nodeData with
    | some nd => nd.name.getD ""
    | none => ""
  rules nodeName

/-- getNodeDisplayPrice from the source: empty label unless the node carries
a truthy api_node flag, a rule exists for its name, the engine tag is
jsonata and the rule compiled; then the current context and signature are
built, a cache entry with the current signature is served directly, and
otherwise an evaluation is scheduled and the last-known label (empty when
none) is returned. The returned state is the entity state after the call. -/
def getNodeDisplayPrice (P : JSPlatform)
    (rules : String → Option CompiledJsonataPricingRule)
    (node : PricingNode) (s : SchedState) : String × SchedState :=
  match node.nodeData with
  | none => ("", s)
  | some nd =>
      if nd.api_node ≠ some true then ("", s)
      else
        match getRuleForNode rules node with
        | none => ("", s)
        | some rule =>
            if rule.engine ≠ "jsonata" then ("", s)
            else if rule.compiled = false then ("", s)
            else
              let ctx := buildJsonataContext P node rule.toJsonataPricingRule
              let sig := buildSignature P ctx rule.toJsonataPricingRule
              match s.cache with
              | some c =>
                  if c.sig = sig then (c.label, s)
                  else (c.label, scheduleEvaluation s sig rule.compiled)
              | none => ("", scheduleEvaluation s sig rule.compiled)

/-- Events observable at the engine boundary for one entity: a synchronous
query of the display price, or the rejection of the physically running
evaluation at a given index of pending. Successful completions are applied
directly with completeAt where a scenario needs them. -/
inductive PEvent where
  | query : PEvent
  | fail : Nat → PEvent
deriving DecidableEq

/-- One engine step for a fixed platform, rule table, node snapshot and
rule-level defaults. -/
def stepEvent (P : JSPlatform) (rules : String → Option CompiledJsonataPricingRule)
    (node : PricingNode) (defaults : CreditFormatOptions)
    (s : SchedState) : PEvent → SchedState
  | PEvent.query => (getNodeDisplayPrice P rules node s).2
  | PEvent.fail i => completeAt P defaults s i Outcome.failure

/-- State after a sequence of engine steps. -/
def runTrace (P : JSPlatform) (rules : String → Option CompiledJsonataPricingRule)
    (node : PricingNode) (defaults : CreditFormatOptions) :
    SchedState → List PEvent → SchedState
  | s, [] => s
  | s, e :: es => runTrace P rules node defaults (stepEvent P rules node defaults s e) es

/-- Labels returned by the queries of a sequence of engine steps, in order. -/
def traceOutputs (P : JSPlatform) (rules : String → Option CompiledJsonataPricingRule)
    (node : PricingNode) (defaults : CreditFormatOptions) :
    SchedState → List PEvent → List String
  | _, [] => []
  | s, PEvent.query :: es =>
      (getNodeDisplayPrice P rules node s).1 ::
        traceOutputs P rules node defaults (stepEvent P rules node defaults s PEvent.query) es
  | s, PEvent.fail i :: es =>
      traceOutputs P rules node defaults (stepEvent P rules node defaults s (PEvent.fail i)) es

/-- A node reaches the evaluation path with signature S when its constructor
data carries a truthy api_node flag, the rule table resolves its name to a
compiled jsonata rule, and the signature built from its current context is
S. -/
def OnEvalPath (P : JSPlatform) (rules : String → Option CompiledJsonataPricingRule)
    (node : PricingNode) (rule : CompiledJsonataPricingRule) (S : String) : Prop :=
  ∃ nd, node.nodeData = some nd ∧ nd.api_node = some true ∧
    getRuleForNode rules node = some rule ∧
    rule.engine = "jsonata" ∧ rule.compiled = true ∧
    buildSignature P (buildJsonataContext P node rule.toJsonataPricingRule)
      rule.toJsonataPricingRule = S

/-- Concrete platform for closed witnesses and counterexamples: numbers print
as "0", only the string "42" parses to a finite number, stringification
throws, and the external credits formatter prints a fixed marker. -/
def testPlatform : JSPlatform where
  numToString := fun _ => "0"
  parseNumber := fun t => if t = "42" then JNum.fin 42 else JNum.nan
  jsonStringify := fun _ => none
  formatCreditsFromUsd := fun _ => "$"

/-- Concrete compiled rule depending on the single widget m. -/
def cxRule : CompiledJsonataPricingRule where
  engine := "jsonata"
  depends_on := { widgets := ["m"], inputs := [] }
  result_defaults := none
  expr := "e"
  compiled := true

/-- Concrete rule table holding cxRule under the type name N. -/
def cxRules : String → Option CompiledJsonataPricingRule :=
  fun n => if n = "N" then some cxRule else none

/-- Concrete api node of type N whose widget m holds the given string. -/
def cxNode (v : String) : PricingNode where
  nodeData := some { name := some "N", api_node := some true }
  widgets := some [{ name := "m", value := JSValue.str v }]
  inputs := some []

/-- Concrete node of type N without a truthy api_node flag. -/
def cxNodeNoApi : PricingNode where
  nodeData := some { name := some "N", api_node := some false }
  widgets := some [{ name := "m", value := JSValue.str "a" }]
  inputs := some []

lemma str_append_cancel_right {a b c : String} (h : a ++ c = b ++ c) : a = b := by
  have hd : a.data ++ c.data = b.data ++ c.data := by
    have hc := congrArg String.data h
    simpa [String.data_append] using hc
  exact String.ext (List.append_cancel_right hd)

lemma str_append_cancel_left {a b c : String} (h : c ++ a = c ++ b) : a = b := by
  have hd : c.data ++ a.data = c.data ++ b.data := by
    have hc := congrArg String.data h
    simpa [String.data_append] using hc
  exact String.ext (List.append_cancel_left hd)

lemma joinSep_cons_of_ne_nil (sep x : String) {l : List String} (h : l ≠ []) :
    joinSep sep (x :: l) = x ++ sep ++ joinSep sep l := by
  cases l with
  | nil => exact absurd rfl h
  | cons y ys => rfl

lemma joinSep_ne_of_single_diff (sep : String) :
    ∀ (pre : List String) (a b : String) (post : List String), a ≠ b →
      joinSep sep (pre ++ a :: post) ≠ joinSep sep (pre ++ b :: post) := by
  intro pre
  induction pre with
  | nil =>
      intro a b post hab
      cases post with
      | nil => simpa [joinSep] using hab
      | cons p ps =>
          intro h
          simp only [List.nil_append, joinSep] at h
          exact hab (str_append_cancel_right (str_append_cancel_right h))
  | cons x pre ih =>
      intro a b post hab h
      have h1 : joinSep sep (x :: (pre ++ a :: post)) = joinSep sep (x :: (pre ++ b :: post)) := by
        simpa using h
      rw [joinSep_cons_of_ne_nil sep x (by simp), joinSep_cons_of_ne_nil sep x (by simp)] at h1
      exact ih a b post hab (str_append_cancel_left h1)

lemma getNodeDisplayPrice_eval {P : JSPlatform}
    {rules : String → Option CompiledJsonataPricingRule} {node : PricingNode}
    {rule : CompiledJsonataPricingRule} {S : String}
    (h : OnEvalPath P rules node rule S) (s : SchedState) :
    getNodeDisplayPrice P rules node s =
      match s.cache with
      | some c => if c.sig = S then (c.label, s) else (c.label, scheduleEvaluation s S true)
      | none => ("", scheduleEvaluation s S true) := by
  obtain ⟨nd, hnd, ha, hr, he, hc, hs⟩ := h
  simp only [getNodeDisplayPrice, hnd, ha, hr, he, hc, hs]
  simp

lemma scheduleEvaluation_coalesce {s : SchedState} {sig : String} (c : Bool)
    (h : s.inflight = some sig) :
    scheduleEvaluation s sig c = { s with desired := some sig } := by
  simp [scheduleEvaluation, h]

lemma scheduleEvaluation_start {s : SchedState} {sig : String}
    (h : s.inflight ≠ some sig) :
    scheduleEvaluation s sig true =
      { s with desired := some sig, pending := s.pending ++ [sig],
               inflight := some sig, evalCount := s.evalCount + 1 } := by
  simp [scheduleEvaluation, h]

lemma completeAt_none {P : JSPlatform} {d : CreditFormatOptions} {s : SchedState}
    {i : Nat} (o : Outcome) (hg : s.pending.get? i = none) :
    completeAt P d s i o = s := by
  unfold completeAt
  rw [hg]

lemma completeAt_some {P : JSPlatform} {d : CreditFormatOptions} {s : SchedState}
    {i : Nat} {sig : String} (o : Outcome) (hg : s.pending.get? i = some sig) :
    completeAt P d s i o =
      (let s1 : SchedState := { s with pending := s.pending.eraseIdx i }
       let s2 : SchedState :=
         match o with
         | Outcome.success res =>
             if s1.desired = some sig then
               { s1 with cache := some ⟨sig, formatPricingResult P res d⟩ } else s1
         | Outcome.failure =>
             if s1.desired = some sig then { s1 with cache := some ⟨sig, ""⟩ } else s1
       let s3 : SchedState := if s2.inflight = some sig then { s2 with inflight := none } else s2
       { s3 with tick := s3.tick + 1 }) := by
  unfold completeAt
  rw [hg]

/-- C1: for every completion of an evaluation started for signature S, the
desired-signature slot is untouched; when the recorded desired signature no
longer equals S the outcome is discarded with no cache write; when it still
equals S a success writes the entry holding S and the formatted label and a
failure writes the entry holding S and the empty label; consequently any
completion that changes the cache leaves an entry whose signature is S and
equals the desired signature recorded at write time. -/
theorem claim1_completion_write_discipline (P : JSPlatform) (d : CreditFormatOptions)
    (s : SchedState) (i : Nat) (o : Outcome) (S : String)
    (hp : s.pending.get? i = some S) :
    ((completeAt P d s i o).desired = s.desired) ∧
    (s.desired ≠ some S → (completeAt P d s i o).cache = s.cache) ∧
    (∀ res, s.desired = some S → o = Outcome.success res →
      (completeAt P d s i o).cache = some ⟨S, formatPricingResult P res d⟩) ∧
    (s.desired = some S → o = Outcome.failure →
      (completeAt P d s i o).cache = some ⟨S, ""⟩) ∧
    ((completeAt P d s i o).cache ≠ s.cache →
      (completeAt P d s i o).desired = some S ∧
      ∃ l, (completeAt P d s i o).cache = some ⟨S, l⟩) := by
  rw [completeAt_some o hp]
  cases o with
  | success res =>
      by_cases hd : s.desired = some S
      · simp [hd, apply_ite SchedState.cache, apply_ite SchedState.desired]
      · simp [hd, apply_ite SchedState.cache, apply_ite SchedState.desired]
  | failure =>
      by_cases hd : s.desired = some S
      · simp [hd, apply_ite SchedState.cache, apply_ite SchedState.desired]
      · simp [hd, apply_ite SchedState.cache, apply_ite SchedState.desired]

/-- Concrete state with one evaluation running for signature s1, still
desired. -/
def cxC1State : SchedState :=
  { cache := none, desired := some "s1", inflight := some "s1"
    pending := ["s1"], tick := 0, evalCount := 1 }

/-- Witness for C1 at a concrete state: a failed completion for the still
desired signature writes the empty-label entry. -/
theorem claim1_witness :
    (completeAt testPlatform {} cxC1State 0 Outcome.failure).cache = some ⟨"s1", ""⟩ :=
  (claim1_completion_write_discipline testPlatform {} cxC1State 0 Outcome.failure "s1"
    rfl).2.2.2.1 rfl rfl

/-- C2 (amended): on the fast path — a cache entry whose signature equals the
currently computed signature S — the query returns the cached label and has
no side effect at all: the entity state, including the recorded desired
signature, is returned unchanged. The desired signature is not updated to S,
contrary to the claim as stated (see the counterexample). -/
theorem claim2_fast_path_no_side_effect {P : JSPlatform}
    {rules : String → Option CompiledJsonataPricingRule} {node : PricingNode}
    {rule : CompiledJsonataPricingRule} {S : String} (s : SchedState)
    (h : OnEvalPath P rules node rule S) (c : CacheEntry)
    (hc : s.cache = some c) (hsig : c.sig = S) :
    getNodeDisplayPrice P rules node s = (c.label, s) := by
  rw [getNodeDisplayPrice_eval h, hc]
  simp [hsig]

/-- Raw evaluator result used in the C2 scenario: a text pricing result. -/
def cxTextResult : JSValue :=
  JSValue.obj [("type", JSValue.str "text"), ("text", JSValue.str "L1")]

/-- State after the first query of the C2 scenario (signature w:m=a). -/
def cxS1 : SchedState :=
  (getNodeDisplayPrice testPlatform cxRules (cxNode "a") initState).2

/-- State after that evaluation resolves successfully with label L1. -/
def cxS2 : SchedState :=
  completeAt testPlatform {} cxS1 0 (Outcome.success cxTextResult)

/-- State after a second query with the widget changed (signature w:m=b). -/
def cxS3 : SchedState :=
  (getNodeDisplayPrice testPlatform cxRules (cxNode "b") cxS2).2

/-- Counterexample to C2 as stated, on a reachable scenario: with the cache
holding the entry for w:m=a and the desired signature recording w:m=b, a
query that computes w:m=a takes the fast path, returns the cached label, but
does not record w:m=a as the desired signature — the desired signature stays
w:m=b. -/
theorem claim2_counterexample :
    cxS3.cache = some ⟨"w:m=a", "L1"⟩ ∧
    buildSignature testPlatform
      (buildJsonataContext testPlatform (cxNode "a") cxRule.toJsonataPricingRule)
      cxRule.toJsonataPricingRule = "w:m=a" ∧
    (getNodeDisplayPrice testPlatform cxRules (cxNode "a") cxS3).1 = "L1" ∧
    (getNodeDisplayPrice testPlatform cxRules (cxNode "a") cxS3).2.desired = some "w:m=b" ∧
    (some "w:m=b" : Option String) ≠ some "w:m=a" := by
  refine ⟨by decide, by decide, by decide, by decide, by decide⟩

/-- Witness for C2 (amended) at a concrete state: the fast-path query
returns the cached label with the state unchanged. -/
theorem claim2_witness :
    getNodeDisplayPrice testPlatform cxRules (cxNode "a") cxS2 = ("L1", cxS2) := by
  have h : OnEvalPath testPlatform cxRules (cxNode "a") cxRule "w:m=a" :=
    ⟨{ name := some "N", api_node := some true }, rfl, rfl, rfl, rfl, rfl, rfl⟩
  have hc : cxS2.cache = some ⟨"w:m=a", "L1"⟩ := by decide
  exact claim2_fast_path_no_side_effect cxS2 h ⟨"w:m=a", "L1"⟩ hc rfl

/-- C3: a query that computes signature S while the in-flight record already
carries S starts no new evaluation: the list of running evaluations, the
invocation count and the in-flight record are unchanged. The in-flight
record is one optional slot per entity by construction, so at most one
exists per entity at any time. -/
theorem claim3_coalescing {P : JSPlatform}
    {rules : String → Option CompiledJsonataPricingRule} {node : PricingNode}
    {rule : CompiledJsonataPricingRule} {S : String} (s : SchedState)
    (h : OnEvalPath P rules node rule S) (hin : s.inflight = some S) :
    (getNodeDisplayPrice P rules node s).2.pending = s.pending ∧
    (getNodeDisplayPrice P rules node s).2.evalCount = s.evalCount ∧
    (getNodeDisplayPrice P rules node s).2.inflight = s.inflight := by
  rw [getNodeDisplayPrice_eval h]
  cases hc : s.cache with
  | none => simp [scheduleEvaluation_coalesce true hin, hin]
  | some c =>
      by_cases hs : c.sig = S
      · simp [hs]
      · simp [hs, scheduleEvaluation_coalesce true hin, hin]

/-- Concrete state with an evaluation for the signature of cxNode a in
flight. -/
def cxC3State : SchedState :=
  { cache := none, desired := some "w:m=a", inflight := some "w:m=a"
    pending := ["w:m=a"], tick := 0, evalCount := 1 }

/-- Witness for C3 at a concrete state: a duplicate query does not start a
second evaluation. -/
theorem claim3_witness :
    (getNodeDisplayPrice testPlatform cxRules (cxNode "a") cxC3State).2.pending = ["w:m=a"] ∧
    (getNodeDisplayPrice testPlatform cxRules (cxNode "a") cxC3State).2.evalCount = 1 := by
  have h : OnEvalPath testPlatform cxRules (cxNode "a") cxRule "w:m=a" :=
    ⟨{ name := some "N", api_node := some true }, rfl, rfl, rfl, rfl, rfl, rfl⟩
  have hmain := claim3_coalescing cxC3State h rfl
  exact ⟨hmain.1, hmain.2.1⟩

/-- States reachable for one entity whose inputs never change (fixed
signature S) under an evaluator that always fails: nothing has run yet, one
evaluation is running, or the failure has been cached with the empty label. -/
def InvC4 (S : String) (s : SchedState) : Prop :=
  (s.evalCount = 0 ∧ s.cache = none ∧ s.desired = none ∧
    s.inflight = none ∧ s.pending = []) ∨
  (s.evalCount = 1 ∧ s.cache = none ∧ s.desired = some S ∧
    s.inflight = some S ∧ s.pending = [S]) ∨
  (s.evalCount = 1 ∧ s.cache = some ⟨S, ""⟩ ∧ s.desired = some S ∧
    s.inflight = none ∧ s.pending = [])

lemma invC4_count_le {S : String} {s : SchedState} (hi : InvC4 S s) :
    s.evalCount ≤ 1 := by
  rcases hi with ⟨h0, _⟩ | ⟨h1, _⟩ | ⟨h1, _⟩ <;> omega

lemma invC4_query {P : JSPlatform}
    {rules : String → Option CompiledJsonataPricingRule} {node : PricingNode}
    {rule : CompiledJsonataPricingRule} {S : String}
    (h : OnEvalPath P rules node rule S) {s : SchedState} (hi : InvC4 S s) :
    InvC4 S (getNodeDisplayPrice P rules node s).2 ∧
    (getNodeDisplayPrice P rules node s).2.evalCount = 1 ∧
    (getNodeDisplayPrice P rules node s).1 = "" := by
  rw [getNodeDisplayPrice_eval h s]
  rcases hi with ⟨h0, hc, hd, hif, hp⟩ | ⟨h1, hc, hd, hif, hp⟩ | ⟨h1, hc, hd, hif, hp⟩
  · rw [hc]
    have hne : s.inflight ≠ some S := by rw [hif]; exact Option.noConfusion
    rw [scheduleEvaluation_start hne]
    refine ⟨Or.inr (Or.inl ?_), by simp [h0], rfl⟩
    simp [h0, hc, hd, hp]
  · rw [hc]
    have heq : s.inflight = some S := hif
    rw [scheduleEvaluation_coalesce true heq]
    refine ⟨Or.inr (Or.inl ?_), by simp [h1], rfl⟩
    simp [h1, hc, hif, hp]
  · rw [hc]
    simp only [if_pos rfl]
    exact ⟨Or.inr (Or.inr ⟨h1, hc, hd, hif, hp⟩), h1, rfl⟩

lemma invC4_fail (P : JSPlatform) (d : CreditFormatOptions) {S : String}
    {s : SchedState} (hi : InvC4 S s) (i : Nat) :
    InvC4 S (completeAt P d s i Outcome.failure) ∧
    (completeAt P d s i Outcome.failure).evalCount = s.evalCount := by
  rcases hi with ⟨h0, hc, hd, hif, hp⟩ | ⟨h1, hc, hd, hif, hp⟩ | ⟨h1, hc, hd, hif, hp⟩
  · have hg : s.pending.get? i = none := by rw [hp]; simp
    rw [completeAt_none Outcome.failure hg]
    exact ⟨Or.inl ⟨h0, hc, hd, hif, hp⟩, rfl⟩
  · cases i with
    | zero =>
        have hg : s.pending.get? 0 = some S := by rw [hp]; rfl
        rw [completeAt_some Outcome.failure hg]
        refine ⟨Or.inr (Or.inr ?_), ?_⟩
        · simp [hd, hif, h1, hp]
        · simp [hd, hif]
    | succ n =>
        have hg : s.pending.get? (n + 1) = none := by rw [hp]; simp
        rw [completeAt_none Outcome.failure hg]
        exact ⟨Or.inr (Or.inl ⟨h1, hc, hd, hif, hp⟩), rfl⟩
  · have hg : s.pending.get? i = none := by rw [hp]; simp
    rw [completeAt_none Outcome.failure hg]
    exact ⟨Or.inr (Or.inr ⟨h1, hc, hd, hif, hp⟩), rfl⟩

lemma runC4 {P : JSPlatform}
    {rules : String → Option CompiledJsonataPricingRule} {node : PricingNode}
    {rule : CompiledJsonataPricingRule} {S : String} {d : CreditFormatOptions}
    (h : OnEvalPath P rules node rule S) :
    ∀ (es : List PEvent) (s : SchedState), InvC4 S s →
      InvC4 S (runTrace P rules node d s es) ∧
      (∀ o ∈ traceOutputs P rules node d s es, o = "") ∧
      ((s.evalCount = 1 ∨ PEvent.query ∈ es) →
        (runTrace P rules node d s es).evalCount = 1) := by
  intro es
  induction es with
  | nil =>
      intro s hi
      refine ⟨hi, by simp [traceOutputs], ?_⟩
      rintro (h1 | hq)
      · exact h1
      · simp at hq
  | cons e es ih =>
      intro s hi
      cases e with
      | query =>
          obtain ⟨hinv, hcnt, hout⟩ := invC4_query h hi
          obtain ⟨ih1, ih2, ih3⟩ := ih _ hinv
          refine ⟨by simpa [runTrace, stepEvent] using ih1, ?_, ?_⟩
          · intro o ho
            have ho2 : o = (getNodeDisplayPrice P rules node s).1 ∨
                o ∈ traceOutputs P rules node d (stepEvent P rules node d s PEvent.query) es :=
              List.mem_cons.mp ho
            rcases ho2 with ho2 | ho2
            · exact ho2.trans hout
            · exact ih2 o ho2
          · intro _
            have := ih3 (Or.inl (by simpa [stepEvent] using hcnt))
            simpa [runTrace, stepEvent] using this
      | fail i =>
          obtain ⟨hinv, hcnt⟩ := invC4_fail P d hi i
          obtain ⟨ih1, ih2, ih3⟩ := ih _ hinv
          refine ⟨by simpa [runTrace, stepEvent] using ih1, ?_, ?_⟩
          · intro o ho
            simp only [traceOutputs, stepEvent] at ho
            exact ih2 o ho
          · rintro (h1 | hq)
            · have := ih3 (Or.inl (by simpa [stepEvent, hcnt] using h1))
              simpa [runTrace, stepEvent] using this
            · have hq2 : PEvent.query ∈ es := by simpa using hq
              have := ih3 (Or.inr hq2)
              simpa [runTrace, stepEvent] using this

/-- C4: with an evaluator that always fails, every query of an entity whose
inputs never changed (the one derived signature stays S) returns the empty
string, and over any interleaving of queries and failed completions starting
from a fresh entity the evaluator is invoked at most once — exactly once as
soon as one query ran. The public getter is a total Lean function returning
a string, embedding its never-throws contract; each rejection is consumed by
the catch branch of the completion step and caches the empty label, so no
retry happens for the unchanged signature. -/
theorem claim4_failure_containment {P : JSPlatform}
    {rules : String → Option CompiledJsonataPricingRule} {node : PricingNode}
    {rule : CompiledJsonataPricingRule} {S : String} (d : CreditFormatOptions)
    (h : OnEvalPath P rules node rule S) (es : List PEvent) :
    (∀ o ∈ traceOutputs P rules node d initState es, o = "") ∧
    (runTrace P rules node d initState es).evalCount ≤ 1 ∧
    (PEvent.query ∈ es → (runTrace P rules node d initState es).evalCount = 1) := by
  have hinit : InvC4 S initState := Or.inl ⟨rfl, rfl, rfl, rfl, rfl⟩
  obtain ⟨h1, h2, h3⟩ := runC4 h es initState hinit
  exact ⟨h2, invC4_count_le h1, fun hq => h3 (Or.inr hq)⟩

/-- Witness for C4 on a concrete run: two queries, a failed completion and a
third query on the fixed node yield empty labels throughout and a single
evaluator invocation. -/
theorem claim4_witness :
    traceOutputs testPlatform cxRules (cxNode "a") {} initState
      [PEvent.query, PEvent.query, PEvent.fail 0, PEvent.query] = ["", "", ""] ∧
    (runTrace testPlatform cxRules (cxNode "a") {} initState
      [PEvent.query, PEvent.query, PEvent.fail 0, PEvent.query]).evalCount = 1 := by
  have h : OnEvalPath testPlatform cxRules (cxNode "a") cxRule "w:m=a" :=
    ⟨{ name := some "N", api_node := some true }, rfl, rfl, rfl, rfl, rfl, rfl⟩
  have hmain := claim4_failure_containment {} h
    [PEvent.query, PEvent.query, PEvent.fail 0, PEvent.query]
  exact ⟨by decide, hmain.2.2 (by decide)⟩

/-- C10: a node whose constructor nodeData is absent or lacks a truthy
api_node flag makes getNodeDisplayPrice return the empty string with the
entity state returned untouched — no evaluation is scheduled and no cache or
desired-signature slot changes — whatever the rule table holds for its type
name. -/
theorem claim10_non_api_node (P : JSPlatform)
    (rules : String → Option CompiledJsonataPricingRule)
    (node : PricingNode) (s : SchedState)
    (h : node.nodeData = none ∨
      ∃ nd, node.nodeData = some nd ∧ nd.api_node ≠ some true) :
    getNodeDisplayPrice P rules node s = ("", s) := by
  rcases h with h | ⟨nd, hnd, ha⟩
  · simp [getNodeDisplayPrice, h]
  · simp [getNodeDisplayPrice, hnd, ha]

/-- Witness for C10: the concrete node of type N with api_node set to false
resolves to a rule in the table yet yields the empty label and an unchanged
state. -/
theorem claim10_witness :
    getRuleForNode cxRules cxNodeNoApi = some cxRule ∧
    getNodeDisplayPrice testPlatform cxRules cxNodeNoApi cxC1State = ("", cxC1State) :=
  ⟨rfl, claim10_non_api_node testPlatform cxRules cxNodeNoApi cxC1State
    (Or.inr ⟨{ name := some "N", api_node := some false }, rfl, by decide⟩)⟩

/-- C6: the value normalizer is a total function on dynamic values (never
throws, always yields a normalized record). Booleans and object-shaped
values (objects and arrays) are never coerced to numbers; a string whose
trim is non-empty parses through the platform parser and keeps the parsed
number exactly when it is finite; native booleans pass through to the
boolean field; the strings true and false match case-insensitively after
trimming; every other non-boolean value has a null boolean field. -/
theorem claim6_normalizer (P : JSPlatform) (raw : JSValue) :
    ((∀ b, raw = JSValue.bool b → (normalizeWidgetValue P raw).n = none) ∧
     (∀ fs, raw = JSValue.obj fs → (normalizeWidgetValue P raw).n = none) ∧
     (∀ xs, raw = JSValue.arr xs → (normalizeWidgetValue P raw).n = none)) ∧
    (∀ s, raw = JSValue.str s → jsTrim s ≠ "" →
      (normalizeWidgetValue P raw).n =
        (if (P.parseNumber (jsTrim s)).isFinite then some (P.parseNumber (jsTrim s)) else none)) ∧
    ((∀ b, raw = JSValue.bool b → (normalizeWidgetValue P raw).b = some b) ∧
     (∀ s, raw = JSValue.str s → jsToLower (jsTrim s) = "true" →
       (normalizeWidgetValue P raw).b = some true) ∧
     (∀ s, raw = JSValue.str s → jsToLower (jsTrim s) = "false" →
       (normalizeWidgetValue P raw).b = some false) ∧
     ((∀ b, raw ≠ JSValue.bool b) →
      (∀ s, raw = JSValue.str s →
        jsToLower (jsTrim s) ≠ "true" ∧ jsToLower (jsTrim s) ≠ "false") →
      (normalizeWidgetValue P raw).b = none)) := by
  refine ⟨⟨?_, ?_, ?_⟩, ?_, ?_, ?_, ?_, ?_⟩
  · rintro b rfl; rfl
  · rintro fs rfl; rfl
  · rintro xs rfl; rfl
  · rintro s rfl hne
    simp [normalizeWidgetValue, asFiniteNumber, hne]
  · rintro b rfl; rfl
  · rintro s rfl hls
    simp [normalizeWidgetValue, hls]
  · rintro s rfl hls
    simp [normalizeWidgetValue, hls]
  · intro hnb hns
    cases raw with
    | bool b => exact absurd rfl (hnb b)
    | str s =>
        obtain ⟨ht, hf⟩ := hns s rfl
        simp [normalizeWidgetValue, ht, hf]
    | null => rfl
    | undef => rfl
    | num n => rfl
    | obj fs => rfl
    | arr xs => rfl

/-- Witness for C6 at concrete values: the numeric string parses to 42, the
boolean is not number-coerced, and the mixed-case true string maps to the
boolean true. -/
theorem claim6_witness :
    (normalizeWidgetValue testPlatform (JSValue.str " 42 ")).n = some (JNum.fin 42) ∧
    (normalizeWidgetValue testPlatform (JSValue.bool true)).n = none ∧
    (normalizeWidgetValue testPlatform (JSValue.str "TrUe")).b = some true := by
  refine ⟨?_, ?_, ?_⟩
  · have h := (claim6_normalizer testPlatform (JSValue.str " 42 ")).2.1 " 42 " rfl (by decide)
    exact h.trans (by decide)
  · exact (claim6_normalizer testPlatform (JSValue.bool true)).1.1 true rfl
  · exact (claim6_normalizer testPlatform (JSValue.str "TrUe")).2.2.2.1 "TrUe" rfl (by decide)

lemma str_empty_append (x : String) : "" ++ x = x := by
  apply String.ext
  simp [String.data_append, show ("" : String).data = [] from rfl]

lemma str_append_empty (x : String) : x ++ "" = x := by
  apply String.ext
  simp [String.data_append, show ("" : String).data = [] from rfl]

lemma append_credits_run (x : String) : x ++ " credits" ++ "/Run" = x ++ " credits/Run" := by
  apply String.ext
  simp only [String.data_append, List.append_assoc]
  congr 1

lemma approxMark_eq (x : Option Bool) :
    approxMark x = if x = some true then "~" else "" := by
  cases x with
  | none => rfl
  | some b => cases b <;> rfl

lemma asFiniteNumber_isFinite {P : JSPlatform} {v : JSValue} {q : JNum}
    (h : asFiniteNumber P v = some q) : q.isFinite = true := by
  cases v with
  | num n =>
      by_cases hf : n.isFinite
      · simp [asFiniteNumber, hf] at h
        exact h ▸ hf
      · simp [asFiniteNumber, hf] at h
  | str s =>
      by_cases ht : jsTrim s = ""
      · simp [asFiniteNumber, ht] at h
      · by_cases hf : (P.parseNumber (jsTrim s)).isFinite
        · simp [asFiniteNumber, ht, hf] at h
          exact h ▸ hf
        · simp [asFiniteNumber, ht, hf] at h
  | null => simp [asFiniteNumber] at h
  | undef => simp [asFiniteNumber] at h
  | bool b => simp [asFiniteNumber] at h
  | obj fs => simp [asFiniteNumber] at h
  | arr xs => simp [asFiniteNumber] at h

lemma formatPricingResult_usd {P : JSPlatform} {r : JSValue}
    {d : CreditFormatOptions} {q : JNum} (hobj : jsIsObjectLike r = true)
    (hty : jsGetField r "type" = JSValue.str "usd")
    (husd : asFiniteNumber P (jsGetField r "usd") = some q) :
    formatPricingResult P r d =
      formatCreditsLabel P q (mergeFormat d (formatOptionsOfJS (jsGetField r "format"))) := by
  simp [formatPricingResult, hobj, hty, husd]

lemma formatPricingResult_usd_none {P : JSPlatform} {r : JSValue}
    {d : CreditFormatOptions} (hobj : jsIsObjectLike r = true)
    (hty : jsGetField r "type" = JSValue.str "usd")
    (husd : asFiniteNumber P (jsGetField r "usd") = none) :
    formatPricingResult P r d = "" := by
  simp [formatPricingResult, hobj, hty, husd]

lemma formatPricingResult_range {P : JSPlatform} {r : JSValue}
    {d : CreditFormatOptions} {a b : JNum} (hobj : jsIsObjectLike r = true)
    (hty : jsGetField r "type" = JSValue.str "range_usd")
    (hmin : asFiniteNumber P (jsGetField r "min_usd") = some a)
    (hmax : asFiniteNumber P (jsGetField r "max_usd") = some b) :
    formatPricingResult P r d =
      formatCreditsRangeLabel P a b
        (mergeFormat d (formatOptionsOfJS (jsGetField r "format"))) := by
  simp [formatPricingResult, hobj, hty, hmin, hmax]

lemma formatPricingResult_range_none {P : JSPlatform} {r : JSValue}
    {d : CreditFormatOptions} (hobj : jsIsObjectLike r = true)
    (hty : jsGetField r "type" = JSValue.str "range_usd")
    (h : asFiniteNumber P (jsGetField r "min_usd") = none ∨
      asFiniteNumber P (jsGetField r "max_usd") = none) :
    formatPricingResult P r d = "" := by
  rcases h with h | h
  · simp [formatPricingResult, hobj, hty, h]
  · cases hmin : asFiniteNumber P (jsGetField r "min_usd") with
    | none => simp [formatPricingResult, hobj, hty, hmin]
    | some a => simp [formatPricingResult, hobj, hty, hmin, h]

lemma formatPricingResult_list {P : JSPlatform} {r : JSValue}
    {d : CreditFormatOptions} {xs : List JSValue} (hobj : jsIsObjectLike r = true)
    (hty : jsGetField r "type" = JSValue.str "list_usd")
    (harr : jsGetField r "usd" = JSValue.arr xs) :
    formatPricingResult P r d =
      (if (xs.filterMap (asFiniteNumber P)).isEmpty then ""
       else formatCreditsListLabel P (xs.filterMap (asFiniteNumber P))
         (mergeFormat d (formatOptionsOfJS (jsGetField r "format")))) := by
  simp [formatPricingResult, hobj, hty, harr]

lemma formatPricingResult_list_notarr {P : JSPlatform} {r : JSValue}
    {d : CreditFormatOptions} (hobj : jsIsObjectLike r = true)
    (hty : jsGetField r "type" = JSValue.str "list_usd")
    (h : ∀ xs, jsGetField r "usd" ≠ JSValue.arr xs) :
    formatPricingResult P r d = "" := by
  cases hu : jsGetField r "usd" with
  | arr xs => exact absurd hu (h xs)
  | null => simp [formatPricingResult, hobj, hty, hu]
  | undef => simp [formatPricingResult, hobj, hty, hu]
  | bool b => simp [formatPricingResult, hobj, hty, hu]
  | num n => simp [formatPricingResult, hobj, hty, hu]
  | str s => simp [formatPricingResult, hobj, hty, hu]
  | obj fs => simp [formatPricingResult, hobj, hty, hu]

/-- C7 (amended): the formatter is a total function (never throws). A usd
result whose usd field has no finite interpretation renders empty; a
range_usd result with either bound non-finite renders empty; a list_usd
result renders empty when its usd field is not an array or no element has a
finite interpretation — but non-finite elements of the array are dropped
rather than forcing the empty string, and the remaining finite elements are
rendered (see the counterexample to the claim as stated). -/
theorem claim7_formatter_nonfinite (P : JSPlatform) (r : JSValue)
    (d : CreditFormatOptions) (hobj : jsIsObjectLike r = true) :
    (jsGetField r "type" = JSValue.str "usd" →
      asFiniteNumber P (jsGetField r "usd") = none →
      formatPricingResult P r d = "") ∧
    (jsGetField r "type" = JSValue.str "range_usd" →
      (asFiniteNumber P (jsGetField r "min_usd") = none ∨
       asFiniteNumber P (jsGetField r "max_usd") = none) →
      formatPricingResult P r d = "") ∧
    (jsGetField r "type" = JSValue.str "list_usd" →
      (∀ xs, jsGetField r "usd" = JSValue.arr xs →
        (xs.filterMap (asFiniteNumber P) = [] → formatPricingResult P r d = "") ∧
        (xs.filterMap (asFiniteNumber P) ≠ [] →
          formatPricingResult P r d =
            formatCreditsListLabel P (xs.filterMap (asFiniteNumber P))
              (mergeFormat d (formatOptionsOfJS (jsGetField r "format"))))) ∧
      ((∀ xs, jsGetField r "usd" ≠ JSValue.arr xs) →
        formatPricingResult P r d = "")) := by
  refine ⟨?_, ?_, ?_⟩
  · intro hty husd
    exact formatPricingResult_usd_none hobj hty husd
  · intro hty h
    exact formatPricingResult_range_none hobj hty h
  · intro hty
    refine ⟨?_, ?_⟩
    · intro xs harr
      constructor
      · intro hnil
        rw [formatPricingResult_list hobj hty harr, hnil]
        rfl
      · intro hne
        rw [formatPricingResult_list hobj hty harr,
          if_neg (by simpa [List.isEmpty_iff] using hne)]
    · intro h
      exact formatPricingResult_list_notarr hobj hty h

/-- Concrete list_usd result with one finite and one non-finite element. -/
def cxListResult : JSValue :=
  JSValue.obj [("type", JSValue.str "list_usd"),
    ("usd", JSValue.arr [JSValue.num (JNum.fin (1/2)), JSValue.num JNum.inf])]

/-- Counterexample to C7 as stated: a list_usd result containing a
non-finite element does not render the empty string — the non-finite element
is filtered out and the finite one is rendered. -/
theorem claim7_counterexample :
    formatPricingResult testPlatform cxListResult {} = "$ credits/Run" ∧
    ("$ credits/Run" : String) ≠ "" := by
  exact ⟨by decide, by decide⟩

/-- Witness for C7 at concrete results: a non-finite usd field, a non-finite
range bound and an all-non-finite list each render empty. -/
theorem claim7_witness :
    formatPricingResult testPlatform
      (JSValue.obj [("type", JSValue.str "usd"), ("usd", JSValue.num JNum.nan)]) {} = "" ∧
    formatPricingResult testPlatform
      (JSValue.obj [("type", JSValue.str "range_usd"),
        ("min_usd", JSValue.num JNum.inf),
        ("max_usd", JSValue.num (JNum.fin 1))]) {} = "" ∧
    formatPricingResult testPlatform
      (JSValue.obj [("type", JSValue.str "list_usd"),
        ("usd", JSValue.arr [JSValue.num JNum.inf])]) {} = "" := by
  refine ⟨?_, ?_, ?_⟩
  · exact (claim7_formatter_nonfinite testPlatform
      (JSValue.obj [("type", JSValue.str "usd"), ("usd", JSValue.num JNum.nan)]) {}
      rfl).1 rfl rfl
  · exact (claim7_formatter_nonfinite testPlatform
      (JSValue.obj [("type", JSValue.str "range_usd"),
        ("min_usd", JSValue.num JNum.inf),
        ("max_usd", JSValue.num (JNum.fin 1))]) {}
      rfl).2.1 rfl (Or.inl rfl)
  · exact ((claim7_formatter_nonfinite testPlatform
      (JSValue.obj [("type", JSValue.str "list_usd"),
        ("usd", JSValue.arr [JSValue.num JNum.inf])]) {}
      rfl).2.2 rfl).1 [JSValue.num JNum.inf] rfl |>.1 rfl

/-- C8: for every finite usd value and merged format options, the usd label
is the concatenation of the prefix (the tilde exactly when the merged
approximate option is true, empty otherwise), the external formatting of the
amount, the literal credits text, the merged suffix defaulting to /Run, and
the note appended with exactly one leading space when present and non-empty
(an empty-string note is falsy in JavaScript and appends nothing); in
particular a usd result with no format overrides and empty defaults renders
as the formatted amount followed by credits per run with no prefix and no
note. -/
theorem claim8_usd_label (P : JSPlatform) (r : JSValue)
    (d : CreditFormatOptions) (q : JNum) (hobj : jsIsObjectLike r = true)
    (hty : jsGetField r "type" = JSValue.str "usd")
    (husd : asFiniteNumber P (jsGetField r "usd") = some q) :
    (formatPricingResult P r d =
      (if (mergeFormat d (formatOptionsOfJS (jsGetField r "format"))).approximate = some true
        then "~" else "") ++
      P.formatCreditsFromUsd q ++ " credits" ++
      (mergeFormat d (formatOptionsOfJS (jsGetField r "format"))).suffix.getD "/Run" ++
      (match (mergeFormat d (formatOptionsOfJS (jsGetField r "format"))).note with
       | some n => if n = "" then "" else " " ++ n
       | none => "")) ∧
    (formatPricingResult P
      (JSValue.obj [("type", JSValue.str "usd"), ("usd", JSValue.num q)]) {} =
      P.formatCreditsFromUsd q ++ " credits/Run") := by
  constructor
  · rw [formatPricingResult_usd hobj hty husd]
    unfold formatCreditsLabel formatCreditsValue makeSuffix appendNote
    rw [approxMark_eq]
  · have hq : q.isFinite = true := asFiniteNumber_isFinite husd
    have husd2 : asFiniteNumber P
        (jsGetField (JSValue.obj [("type", JSValue.str "usd"), ("usd", JSValue.num q)]) "usd") =
        some q := by
      rw [show jsGetField (JSValue.obj [("type", JSValue.str "usd"),
        ("usd", JSValue.num q)]) "usd" = JSValue.num q from rfl]
      simp [asFiniteNumber, hq]
    rw [@formatPricingResult_usd P
      (JSValue.obj [("type", JSValue.str "usd"), ("usd", JSValue.num q)]) {} q rfl rfl husd2]
    show "" ++ P.formatCreditsFromUsd q ++ " credits" ++ "/Run" ++ "" = _
    rw [str_empty_append, str_append_empty, append_credits_run]

/-- Witness for C8 at a concrete result: usd 0.04 with no overrides renders
as the formatted amount and the default credits-per-run text. -/
theorem claim8_witness :
    formatPricingResult testPlatform
      (JSValue.obj [("type", JSValue.str "usd"),
        ("usd", JSValue.num (JNum.fin (1/25)))]) {} =
      testPlatform.formatCreditsFromUsd (JNum.fin (1/25)) ++ " credits/Run" :=
  (claim8_usd_label testPlatform
    (JSValue.obj [("type", JSValue.str "usd"), ("usd", JSValue.num (JNum.fin (1/25)))])
    {} (JNum.fin (1/25)) rfl rfl rfl).2

/-- C9: a range_usd result whose two finite bounds format to the same string
(in particular equal bounds) collapses to a single formatted amount with no
dash: its label is exactly the usd label of the lower bound under the same
merged format options, and any usd result carrying that value and the same
format field renders identically. -/
theorem claim9_range_collapse (P : JSPlatform) (r : JSValue)
    (d : CreditFormatOptions) (a b : JNum) (hobj : jsIsObjectLike r = true)
    (hty : jsGetField r "type" = JSValue.str "range_usd")
    (hmin : asFiniteNumber P (jsGetField r "min_usd") = some a)
    (hmax : asFiniteNumber P (jsGetField r "max_usd") = some b)
    (hfmt : formatCreditsValue P a = formatCreditsValue P b) :
    (formatPricingResult P r d =
      formatCreditsLabel P a
        (mergeFormat d (formatOptionsOfJS (jsGetField r "format")))) ∧
    (∀ r2, jsIsObjectLike r2 = true →
      jsGetField r2 "type" = JSValue.str "usd" →
      asFiniteNumber P (jsGetField r2 "usd") = some a →
      jsGetField r2 "format" = jsGetField r "format" →
      formatPricingResult P r2 d = formatPricingResult P r d) := by
  have h1 : formatPricingResult P r d =
      formatCreditsLabel P a
        (mergeFormat d (formatOptionsOfJS (jsGetField r "format"))) := by
    rw [formatPricingResult_range hobj hty hmin hmax]
    simp only [formatCreditsRangeLabel, formatCreditsLabel]
    rw [hfmt, if_pos rfl]
  refine ⟨h1, ?_⟩
  intro r2 hobj2 hty2 husd2 hf2
  rw [formatPricingResult_usd hobj2 hty2 husd2, h1, hf2]

/-- Concrete range_usd result with equal bounds. -/
def cxRangeResult : JSValue :=
  JSValue.obj [("type", JSValue.str "range_usd"),
    ("min_usd", JSValue.num (JNum.fin (23/100))),
    ("max_usd", JSValue.num (JNum.fin (23/100)))]

/-- Witness for C9 at a concrete result: the equal-bounds range renders as a
single amount, identical to the usd label. -/
theorem claim9_witness :
    formatPricingResult testPlatform cxRangeResult {} = "$ credits/Run" :=
  ((claim9_range_collapse testPlatform cxRangeResult {} (JNum.fin (23/100))
    (JNum.fin (23/100)) rfl rfl rfl rfl rfl).1).trans (by decide)

lemma buildSignature_congr (P : JSPlatform) (rule : JsonataPricingRule)
    (c1 c2 : JsonataEvalContext)
    (hw : ∀ nm ∈ rule.depends_on.widgets, ctxRaw c1 nm = ctxRaw c2 nm)
    (hi : ∀ nm ∈ rule.depends_on.inputs, ctxConnected c1 nm = ctxConnected c2 nm) :
    buildSignature P c1 rule = buildSignature P c2 rule := by
  unfold buildSignature
  congr 1
  congr 1
  · exact List.map_congr_left fun x hx => by unfold widgetSigPart; rw [hw x hx]
  · exact List.map_congr_left fun x hx => by unfold inputSigPart; rw [hi x hx]

lemma widgetSigPart_ne {P : JSPlatform} {c1 c2 : JsonataEvalContext} {nm : String}
    (h : safeValueForSig P (ctxRaw c1 nm) ≠ safeValueForSig P (ctxRaw c2 nm)) :
    widgetSigPart P c1 nm ≠ widgetSigPart P c2 nm :=
  fun he => h (str_append_cancel_left he)

lemma ifOneZero_inj {a b : Bool}
    (h2 : (if a = true then "1" else "0") = (if b = true then "1" else "0")) : a = b := by
  cases a <;> cases b <;> simp_all

lemma inputSigPart_ne {c1 c2 : JsonataEvalContext} {nm : String}
    (h : ctxConnected c1 nm ≠ ctxConnected c2 nm) :
    inputSigPart c1 nm ≠ inputSigPart c2 nm := by
  intro he
  exact h (ifOneZero_inj (str_append_cancel_left he))

lemma buildSignature_ne_widget (P : JSPlatform) (rule : JsonataPricingRule)
    (c1 c2 : JsonataEvalContext) (nm : String)
    (hmem : nm ∈ rule.depends_on.widgets) (hnd : rule.depends_on.widgets.Nodup)
    (hdiff : safeValueForSig P (ctxRaw c1 nm) ≠ safeValueForSig P (ctxRaw c2 nm))
    (hw : ∀ x ∈ rule.depends_on.widgets, x ≠ nm → ctxRaw c1 x = ctxRaw c2 x)
    (hi : ∀ x ∈ rule.depends_on.inputs, ctxConnected c1 x = ctxConnected c2 x) :
    buildSignature P c1 rule ≠ buildSignature P c2 rule := by
  obtain ⟨pre, post, hsplit⟩ := List.append_of_mem hmem
  have hnd2 : (pre ++ nm :: post).Nodup := hsplit ▸ hnd
  have hnmpre : nm ∉ pre := fun hin =>
    List.disjoint_of_nodup_append hnd2 hin (List.mem_cons_self nm post)
  have hpre : pre.map (widgetSigPart P c1) = pre.map (widgetSigPart P c2) :=
    List.map_congr_left fun x hx => by
      unfold widgetSigPart
      rw [hw x (hsplit ▸ List.mem_append_left _ hx)
        (fun hxe => hnmpre (hxe ▸ hx))]
  have hnmpost : nm ∉ post :=
    (List.nodup_cons.mp (List.nodup_append.mp hnd2).2.1).1
  have hpost : post.map (widgetSigPart P c1) = post.map (widgetSigPart P c2) :=
    List.map_congr_left fun x hx => by
      unfold widgetSigPart
      rw [hw x (hsplit ▸ List.mem_append_right _ (List.mem_cons_of_mem nm hx))
        (fun hxe => hnmpost (hxe ▸ hx))]
  have hins : rule.depends_on.inputs.map (inputSigPart c1) =
      rule.depends_on.inputs.map (inputSigPart c2) :=
    List.map_congr_left fun x hx => by unfold inputSigPart; rw [hi x hx]
  unfold buildSignature
  rw [hsplit]
  simp only [List.map_append, List.map_cons, List.append_assoc, List.cons_append]
  rw [hpre, hpost, hins]
  exact joinSep_ne_of_single_diff "|" (pre.map (widgetSigPart P c2))
    (widgetSigPart P c1 nm) (widgetSigPart P c2 nm)
    (post.map (widgetSigPart P c2) ++ rule.depends_on.inputs.map (inputSigPart c2))
    (widgetSigPart_ne hdiff)

lemma buildSignature_ne_input (P : JSPlatform) (rule : JsonataPricingRule)
    (c1 c2 : JsonataEvalContext) (nm : String)
    (hmem : nm ∈ rule.depends_on.inputs) (hnd : rule.depends_on.inputs.Nodup)
    (hdiff : ctxConnected c1 nm ≠ ctxConnected c2 nm)
    (hw : ∀ x ∈ rule.depends_on.widgets, ctxRaw c1 x = ctxRaw c2 x)
    (hi : ∀ x ∈ rule.depends_on.inputs, x ≠ nm → ctxConnected c1 x = ctxConnected c2 x) :
    buildSignature P c1 rule ≠ buildSignature P c2 rule := by
  obtain ⟨pre, post, hsplit⟩ := List.append_of_mem hmem
  have hnd2 : (pre ++ nm :: post).Nodup := hsplit ▸ hnd
  have hnmpre : nm ∉ pre := fun hin =>
    List.disjoint_of_nodup_append hnd2 hin (List.mem_cons_self nm post)
  have hnmpost : nm ∉ post :=
    (List.nodup_cons.mp (List.nodup_append.mp hnd2).2.1).1
  have hws : rule.depends_on.widgets.map (widgetSigPart P c1) =
      rule.depends_on.widgets.map (widgetSigPart P c2) :=
    List.map_congr_left fun x hx => by unfold widgetSigPart; rw [hw x hx]
  have hpre : pre.map (inputSigPart c1) = pre.map (inputSigPart c2) :=
    List.map_congr_left fun x hx => by
      unfold inputSigPart
      rw [hi x (hsplit ▸ List.mem_append_left _ hx)
        (fun hxe => hnmpre (hxe ▸ hx))]
  have hpost : post.map (inputSigPart c1) = post.map (inputSigPart c2) :=
    List.map_congr_left fun x hx => by
      unfold inputSigPart
      rw [hi x (hsplit ▸ List.mem_append_right _ (List.mem_cons_of_mem nm hx))
        (fun hxe => hnmpost (hxe ▸ hx))]
  unfold buildSignature
  rw [hsplit]
  have hshape : ∀ (c : JsonataEvalContext),
      rule.depends_on.widgets.map (widgetSigPart P c) ++
        (pre ++ nm :: post).map (inputSigPart c) =
      (rule.depends_on.widgets.map (widgetSigPart P c) ++ pre.map (inputSigPart c)) ++
        (inputSigPart c nm :: post.map (inputSigPart c)) := by
    intro c
    simp [List.map_append, List.map_cons, List.append_assoc]
  rw [hshape c1, hshape c2, hws, hpre, hpost]
  exact joinSep_ne_of_single_diff "|"
    (rule.depends_on.widgets.map (widgetSigPart P c2) ++ pre.map (inputSigPart c2))
    (inputSigPart c1 nm) (inputSigPart c2 nm)
    (post.map (inputSigPart c2))
    (inputSigPart_ne hdiff)

/-- C5 (amended): the signature is deterministic — contexts agreeing on the
raw value of every declared widget and the connected flag of every declared
input build equal signatures. Changing a single declared dependency changes
the signature provided the change is visible to the serialization: for a
widget (declared once), whenever the safe-string form of its raw value
changes — raw values with equal safe-string serializations can collide, see
the counterexample — and for an input (declared once), always, since the two
flag marks differ. -/
theorem claim5_signature_determinism (P : JSPlatform) (rule : JsonataPricingRule)
    (c1 c2 : JsonataEvalContext) :
    ((∀ nm ∈ rule.depends_on.widgets, ctxRaw c1 nm = ctxRaw c2 nm) →
     (∀ nm ∈ rule.depends_on.inputs, ctxConnected c1 nm = ctxConnected c2 nm) →
     buildSignature P c1 rule = buildSignature P c2 rule) ∧
    (∀ nm ∈ rule.depends_on.widgets, rule.depends_on.widgets.Nodup →
     safeValueForSig P (ctxRaw c1 nm) ≠ safeValueForSig P (ctxRaw c2 nm) →
     (∀ x ∈ rule.depends_on.widgets, x ≠ nm → ctxRaw c1 x = ctxRaw c2 x) →
     (∀ x ∈ rule.depends_on.inputs, ctxConnected c1 x = ctxConnected c2 x) →
     buildSignature P c1 rule ≠ buildSignature P c2 rule) ∧
    (∀ nm ∈ rule.depends_on.inputs, rule.depends_on.inputs.Nodup →
     ctxConnected c1 nm ≠ ctxConnected c2 nm →
     (∀ x ∈ rule.depends_on.widgets, ctxRaw c1 x = ctxRaw c2 x) →
     (∀ x ∈ rule.depends_on.inputs, x ≠ nm → ctxConnected c1 x = ctxConnected c2 x) →
     buildSignature P c1 rule ≠ buildSignature P c2 rule) := by
  refine ⟨buildSignature_congr P rule c1 c2, ?_, ?_⟩
  · intro nm hmem hnd hdiff hw hi
    exact buildSignature_ne_widget P rule c1 c2 nm hmem hnd hdiff hw hi
  · intro nm hmem hnd hdiff hw hi
    exact buildSignature_ne_input P rule c1 c2 nm hmem hnd hdiff hw hi

/-- Pricing rule over the single widget a, for the C5 scenarios. -/
def cxSigRule : JsonataPricingRule where
  engine := "jsonata"
  depends_on := { widgets := ["a"], inputs := [] }
  result_defaults := none
  expr := "e"

/-- Context where widget a holds the boolean true. -/
def cxCtxBool : JsonataEvalContext where
  w := fun nm =>
    if nm = "a" then some (normalizeWidgetValue testPlatform (JSValue.bool true)) else none
  i := fun _ => none

/-- Context where widget a holds the string true. -/
def cxCtxStr : JsonataEvalContext where
  w := fun nm =>
    if nm = "a" then some (normalizeWidgetValue testPlatform (JSValue.str "true")) else none
  i := fun _ => none

/-- Counterexample to C5 as stated: changing the declared widget a from the
boolean true to the string true changes the dependency value but not the
signature — both serialize to the same safe string, so the signatures
coincide. -/
theorem claim5_counterexample :
    ctxRaw cxCtxBool "a" ≠ ctxRaw cxCtxStr "a" ∧
    buildSignature testPlatform cxCtxBool cxSigRule =
      buildSignature testPlatform cxCtxStr cxSigRule := by
  constructor
  · intro hcon
    exact JSValue.noConfusion hcon
  · rfl

/-- Context where widget a holds the string x. -/
def cxCtxX : JsonataEvalContext where
  w := fun nm =>
    if nm = "a" then some (normalizeWidgetValue testPlatform (JSValue.str "x")) else none
  i := fun _ => none

/-- Context extensionally agreeing with cxCtxX on the declared widget a but
holding an extra undeclared entry. -/
def cxCtxX2 : JsonataEvalContext where
  w := fun nm =>
    if nm = "a" then some (normalizeWidgetValue testPlatform (JSValue.str "x"))
    else if nm = "z" then some (normalizeWidgetValue testPlatform (JSValue.str "junk"))
    else none
  i := fun _ => none

/-- Context where widget a holds the string y. -/
def cxCtxY : JsonataEvalContext where
  w := fun nm =>
    if nm = "a" then some (normalizeWidgetValue testPlatform (JSValue.str "y")) else none
  i := fun _ => none

/-- Pricing rule over the single input i1, for the C5 input scenario. -/
def cxInRule : JsonataPricingRule where
  engine := "jsonata"
  depends_on := { widgets := [], inputs := ["i1"] }
  result_defaults := none
  expr := "e"

/-- Context where input i1 is connected. -/
def cxCtxConn : JsonataEvalContext where
  w := fun _ => none
  i := fun nm => if nm = "i1" then some true else none

/-- Context where input i1 is not connected. -/
def cxCtxDisc : JsonataEvalContext where
  w := fun _ => none
  i := fun nm => if nm = "i1" then some false else none

/-- Witness for C5 at concrete contexts: agreement on the declared widget
gives equal signatures even with extra undeclared state; changing the
widget string changes the signature; flipping the declared input flag
changes the signature. -/
theorem claim5_witness :
    buildSignature testPlatform cxCtxX cxSigRule =
      buildSignature testPlatform cxCtxX2 cxSigRule ∧
    buildSignature testPlatform cxCtxX cxSigRule ≠
      buildSignature testPlatform cxCtxY cxSigRule ∧
    buildSignature testPlatform cxCtxConn cxInRule ≠
      buildSignature testPlatform cxCtxDisc cxInRule := by
  refine ⟨?_, ?_, ?_⟩
  · exact (claim5_signature_determinism testPlatform cxSigRule cxCtxX cxCtxX2).1
      (fun nm hnm => by rcases List.mem_singleton.mp hnm with rfl; rfl)
      (fun nm hnm => absurd hnm (List.not_mem_nil nm))
  · exact (claim5_signature_determinism testPlatform cxSigRule cxCtxX cxCtxY).2.1
      "a" (List.mem_singleton.mpr rfl)
      (List.nodup_cons.mpr ⟨List.not_mem_nil _, List.nodup_nil⟩) (by decide)
      (fun x hx hne => absurd (List.mem_singleton.mp hx) hne)
      (fun x hx => absurd hx (List.not_mem_nil x))
  · exact (claim5_signature_determinism testPlatform cxInRule cxCtxConn cxCtxDisc).2.2
      "i1" (List.mem_singleton.mpr rfl)
      (List.nodup_cons.mpr ⟨List.not_mem_nil _, List.nodup_nil⟩) (by decide)
      (fun x hx => absurd hx (List.not_mem_nil x))
      (fun x hx hne => absurd (List.mem_singleton.mp hx) hne)

end Pricing
